import Mathlib

/-!
Verification development for the AI Job Matcher pipeline
(`job_matcher.py`).

The pipeline is embedded shallowly:

* strings are Lean `String`s (lists of characters); the spec restricts the
  system to case-folded, punctuation-stripped ASCII/Latin tokenization, so
  character-level operations (lowercasing, whitespace, word characters) are
  modelled on the ASCII range;
* the similarity scorer's floating-point arithmetic is modelled with exact
  real numbers (`ℝ`), following the spec's description of the scoring math
  (smoothed-IDF TF-IDF weighting, L2 normalization, cosine similarity);
* file IO is modelled by an explicit file system `String → Option String`
  mapping a path to its content (`none` = missing file);
* Python's `try/except` around vectorizer fitting becomes an explicit test
  for the condition under which the library raises (empty vocabulary).
-/

namespace JobMatcherModel

/-! ## Character-level helpers -/

/-- The ASCII punctuation characters of Python's `string.punctuation`. -/
def asciiPunct : List Char :=
  "!\"#$%&\x27()*+,-./:;<=>?@[\\]^_\x60\x7b|\x7d~".data

/-- Uppercase/lowercase pairs of the basic Latin alphabet. -/
def upperLower : List (Char × Char) :=
  [('A', 'a'), ('B', 'b'), ('C', 'c'), ('D', 'd'), ('E', 'e'), ('F', 'f'),
   ('G', 'g'), ('H', 'h'), ('I', 'i'), ('J', 'j'), ('K', 'k'), ('L', 'l'),
   ('M', 'm'), ('N', 'n'), ('O', 'o'), ('P', 'p'), ('Q', 'q'), ('R', 'r'),
   ('S', 's'), ('T', 't'), ('U', 'u'), ('V', 'v'), ('W', 'w'), ('X', 'x'),
   ('Y', 'y'), ('Z', 'z')]

/-- ASCII case folding: the effect of Python's `str.lower` on the basic Latin
alphabet (the alphabet the spec restricts the system to), written as a lookup
over the 26 uppercase letters so that it evaluates by `decide`. -/
def lowerChar (c : Char) : Char :=
  ((upperLower.find? (fun p => p.1 = c)).map Prod.snd).getD c

/-- A character that separates whitespace-split tokens (Python `str.split()`). -/
def isWs (c : Char) : Bool := c.isWhitespace

/-- A word character of the vectorizer's token pattern `\w` (ASCII range). -/
def isWordChar (c : Char) : Bool := c.isAlphanum || c == '_'

/-- Scanning loop of `splitRuns`: `acc` holds the (reversed) run of kept
characters read so far. -/
def splitRunsAux (keep : Char → Bool) : List Char → List Char → List (List Char)
  | [], acc => if acc.isEmpty then [] else [acc.reverse]
  | c :: cs, acc =>
    if keep c then splitRunsAux keep cs (c :: acc)
    else if acc.isEmpty then splitRunsAux keep cs []
    else acc.reverse :: splitRunsAux keep cs []

/-- Splits a character list into the maximal runs of characters satisfying
`keep`, dropping the separator characters.  With `keep c = !isWs c` this is
Python's `str.split()`; with `keep = isWordChar` it yields the candidate
tokens of the vectorizer's `\w`-run tokenizer. -/
def splitRuns (keep : Char → Bool) (cs : List Char) : List (List Char) :=
  splitRunsAux keep cs []

/-- Python's `' '.join`: interleaves a single space between the tokens. -/
def joinSp : List (List Char) → List Char
  | [] => []
  | [t] => t
  | t :: t' :: ts => t ++ ' ' :: joinSp (t' :: ts)

/-! ## Stopword data

`JobMatcher.__init__` builds its stopword set from the external English
stopword corpus (`stopwords.words('english')` of the standard NLP resource
named in spec §6) plus six fixed domain filler words. -/

/-- The English stopword corpus the matcher is constructed with. -/
def nltkEnglishStopwords : List String :=
  ["i", "me", "my", "myself", "we", "our", "ours", "ourselves", "you",
   "you\x27re", "you\x27ve", "you\x27ll", "you\x27d", "your", "yours",
   "yourself", "yourselves", "he", "him", "his", "himself", "she",
   "she\x27s", "her", "hers", "herself", "it", "it\x27s", "its", "itself",
   "they", "them", "their", "theirs", "themselves", "what", "which", "who",
   "whom", "this", "that", "that\x27ll", "these", "those", "am", "is",
   "are", "was", "were", "be", "been", "being", "have", "has", "had",
   "having", "do", "does", "did", "doing", "a", "an", "the", "and", "but",
   "if", "or", "because", "as", "until", "while", "of", "at", "by", "for",
   "with", "about", "against", "between", "into", "through", "during",
   "before", "after", "above", "below", "to", "from", "up", "down", "in",
   "out", "on", "off", "over", "under", "again", "further", "then", "once",
   "here", "there", "when", "where", "why", "how", "all", "any", "both",
   "each", "few", "more", "most", "other", "some", "such", "no", "nor",
   "not", "only", "own", "same", "so", "than", "too", "very", "s", "t",
   "can", "will", "just", "don", "don\x27t", "should", "should\x27ve",
   "now", "d", "ll", "m", "o", "re", "ve", "y", "ain", "aren",
   "aren\x27t", "couldn", "couldn\x27t", "didn", "didn\x27t", "doesn",
   "doesn\x27t", "hadn", "hadn\x27t", "hasn", "hasn\x27t", "haven",
   "haven\x27t", "isn", "isn\x27t", "ma", "mightn", "mightn\x27t",
   "mustn", "mustn\x27t", "needn", "needn\x27t", "shan", "shan\x27t",
   "shouldn", "shouldn\x27t", "wasn", "wasn\x27t", "weren", "weren\x27t",
   "won", "won\x27t", "wouldn", "wouldn\x27t"]

/-- The fixed domain-specific filler words added in `JobMatcher.__init__`. -/
def domainStopwords : List String :=
  ["job", "role", "position", "company", "team", "work"]

/-- The stopword set held by a default-constructed matcher.  Python stores it
as a `set`; only membership tests are ever performed on it, so a duplicate-free
list models it faithfully. -/
def defaultStopWords : List String := nltkEnglishStopwords ++ domainStopwords

/-- A `JobMatcher` instance: its only state is the stopword set built at
construction (`self.stop_words`). -/
structure JobMatcher where
  stop_words : List String

/-- The matcher produced by `JobMatcher()`. -/
def defaultMatcher : JobMatcher := ⟨defaultStopWords⟩

/-! ## Text Normalizer (`JobMatcher.preprocess_text`) -/

/-- Keep a token iff it is not a stopword and has length > 2
(`word not in self.stop_words and len(word) > 2`). -/
def keepToken (stop : List (List Char)) (w : List Char) : Bool :=
  decide (w ∉ stop) && decide (2 < w.length)

/-- Character-level body of `preprocess_text`: lowercase, remove ASCII
punctuation, split on whitespace, filter stopwords and short tokens. -/
def preprocessTokens (stop : List (List Char)) (cs : List Char) : List (List Char) :=
  (splitRuns (fun c => !isWs c) ((cs.map lowerChar).filter (fun c => decide (c ∉ asciiPunct)))).filter
    (keepToken stop)

/-- `JobMatcher.preprocess_text`: lowercase the text, strip ASCII punctuation
(`str.translate` with `string.punctuation`), split into whitespace tokens,
drop stopwords and tokens of length ≤ 2, and rejoin with single spaces. -/
def preprocess_text (stop : List String) (text : String) : String :=
  String.mk (joinSp (preprocessTokens (stop.map String.data) text.data))

/-- Spec §4.1, stated in the spec's own words for comparison with the source
embedding `preprocess_text`: (a) lowercase all characters; (b) remove every
ASCII punctuation character; (c) split on whitespace into tokens; (d) drop
any token present in the stopword set or with length ≤ 2; (e) rejoin the
surviving tokens with single spaces. -/
def normalizeSpec (stop : List String) (text : String) : String :=
  let lowered := text.data.map lowerChar
  let stripped := lowered.filter (fun c => decide (c ∉ asciiPunct))
  let tokens := splitRuns (fun c => !isWs c) stripped
  let surviving := tokens.filter
    (fun w => !(decide (w ∈ stop.map String.data) || decide (w.length ≤ 2)))
  String.mk (joinSp surviving)

/-! ## Keyword Extractor (`JobMatcher.extract_keywords`) -/

/-- One step of the frequency-counting loop: bump the count of `w`, or append
`(w, 1)` if `w` has no entry yet.  The association list keeps keys in first
encounter order, exactly as a Python `dict` does. -/
def bumpCount : List (List Char × Nat) → List Char → List (List Char × Nat)
  | [], w => [(w, 1)]
  | (k, n) :: rest, w =>
    if k = w then (k, n + 1) :: rest else (k, n) :: bumpCount rest w

/-- The `word_freq` dictionary built by `extract_keywords`. -/
def countFreq (ws : List (List Char)) : List (List Char × Nat) :=
  ws.foldl bumpCount []

/-- Python's `sorted(·, key=lambda x: x[1], reverse=True)` is a stable sort by
descending count; `List.mergeSort` with this comparison computes the same
list. -/
def sortByFreq (l : List (List Char × Nat)) : List (List Char × Nat) :=
  l.mergeSort (fun x y => decide (y.2 ≤ x.2))

/-- `JobMatcher.extract_keywords`: split the (already preprocessed) text into
words, count occurrences, sort by descending frequency and keep the first
`num_keywords` keys. -/
def extract_keywords (text : String) (num_keywords : Nat := 20) : List String :=
  let words := splitRuns (fun c => !isWs c) text.data
  let sorted_keywords := sortByFreq (countFreq words)
  (sorted_keywords.take num_keywords).map (fun p => String.mk p.1)

/-! ## Skill Set Comparator -/

/-- `JobMatcher.find_matched_skills`: the intersection of the two keyword
lists viewed as sets.  The Python code materializes
`list(resume_set.intersection(job_set))`, whose element order is the
unspecified iteration order of a hash set; the result is modelled by the
underlying finite set. -/
def find_matched_skills (resume_keywords job_keywords : List String) : Finset String :=
  resume_keywords.toFinset ∩ job_keywords.toFinset

/-- `JobMatcher.find_missing_skills`: the job keywords minus the resume
keywords, as a set (`list(job_set - resume_set)` in the source, with the same
unspecified ordering). -/
def find_missing_skills (resume_keywords job_keywords : List String) : Finset String :=
  job_keywords.toFinset \ resume_keywords.toFinset

/-! ## Similarity Scorer (`JobMatcher.calculate_match_score`)

The scorer delegates to `TfidfVectorizer(stop_words='english',
max_features=100)` followed by `cosine_similarity`.  Spec §4.3 pins the
library semantics to reproduce: a `\w\w+` run tokenizer over the lowercased
text, the vectorizer's own fixed English stopword list (independent of the
Normalizer's corpus), a vocabulary capped at the 100 most frequent terms,
smoothed IDF `ln((1+n)/(1+df)) + 1` with `n = 2` documents, L2-normalized
document vectors, and the dot product of the normalized vectors (zero-norm
vectors are left as zero).  Floats are modelled as exact reals. -/

/-- The vectorizer's built-in English stopword list
(`sklearn ENGLISH_STOP_WORDS`, the fixed 318-word Glasgow list). -/
def sklearnStopWords : List String :=
  ["a", "about", "above", "across", "after", "afterwards", "again",
   "against", "all", "almost", "alone", "along", "already", "also",
   "although", "always", "am", "among", "amongst", "amoungst", "amount",
   "an", "and", "another", "any", "anyhow", "anyone", "anything", "anyway",
   "anywhere", "are", "around", "as", "at", "back", "be", "became",
   "because", "become", "becomes", "becoming", "been", "before",
   "beforehand", "behind", "being", "below", "beside", "besides",
   "between", "beyond", "bill", "both", "bottom", "but", "by", "call",
   "can", "cannot", "cant", "co", "con", "could", "couldnt", "cry", "de",
   "describe", "detail", "do", "done", "down", "due", "during", "each",
   "eg", "eight", "either", "eleven", "else", "elsewhere", "empty",
   "enough", "etc", "even", "ever", "every", "everyone", "everything",
   "everywhere", "except", "few", "fifteen", "fifty", "fill", "find",
   "fire", "first", "five", "for", "former", "formerly", "forty", "found",
   "four", "from", "front", "full", "further", "get", "give", "go", "had",
   "has", "hasnt", "have", "he", "hence", "her", "here", "hereafter",
   "hereby", "herein", "hereupon", "hers", "herself", "him", "himself",
   "his", "how", "however", "hundred", "i", "ie", "if", "in", "inc",
   "indeed", "interest", "into", "is", "it", "its", "itself", "keep",
   "last", "latter", "latterly", "least", "less", "ltd", "made", "many",
   "may", "me", "meanwhile", "might", "mill", "mine", "more", "moreover",
   "most", "mostly", "move", "much", "must", "my", "myself", "name",
   "namely", "neither", "never", "nevertheless", "next", "nine", "no",
   "nobody", "none", "noone", "nor", "not", "nothing", "now", "nowhere",
   "of", "off", "often", "on", "once", "one", "only", "onto", "or",
   "other", "others", "otherwise", "our", "ours", "ourselves", "out",
   "over", "own", "part", "per", "perhaps", "please", "put", "rather",
   "re", "same", "see", "seem", "seemed", "seeming", "seems", "serious",
   "several", "she", "should", "show", "side", "since", "sincere", "six",
   "sixty", "so", "some", "somehow", "someone", "something", "sometime",
   "sometimes", "somewhere", "still", "such", "system", "take", "ten",
   "than", "that", "the", "their", "them", "themselves", "then", "thence",
   "there", "thereafter", "thereby", "therefore", "therein", "thereupon",
   "these", "they", "thick", "thin", "third", "this", "those", "though",
   "three", "through", "throughout", "thru", "thus", "to", "together",
   "too", "top", "toward", "towards", "twelve", "twenty", "two", "un",
   "under", "until", "up", "upon", "us", "very", "via", "was", "we",
   "well", "were", "what", "whatever", "when", "whence", "whenever",
   "where", "whereafter", "whereas", "whereby", "wherein", "whereupon",
   "wherever", "whether", "which", "while", "whither", "who", "whoever",
   "whole", "whom", "whose", "why", "will", "with", "within", "without",
   "would", "yet", "you", "your", "yours", "yourself", "yourselves"]

/-- The vectorizer's analyzer: lowercase the document, tokenize into maximal
`\w`-runs of length ≥ 2 (the default token pattern), and drop its own English
stopwords. -/
def skAnalyze (doc : String) : List String :=
  (((splitRuns isWordChar (doc.data.map lowerChar)).filter
      (fun t => decide (2 ≤ t.length))).map String.mk).filter
    (fun w => decide (w ∉ sklearnStopWords))

/-- Term frequency of `t` in a document, as counted by the vectorizer. -/
def tf (doc : String) (t : String) : Nat := (skAnalyze doc).count t

/-- Total count of `t` over the two-document corpus (used by the
`max_features` cap). -/
def corpusCount (a b t : String) : Nat := tf a t + tf b t

/-- The fitted vocabulary over the corpus `[a, b]`: the distinct analyzer
tokens in alphabetical order, capped by `max_features=100` at the 100 terms
of highest corpus frequency.  The library leaves the order among terms of
equal frequency at the cap boundary unspecified (an unstable `argsort`); the
embedding fixes the alphabetical tie-break.  No theorem below depends on
which terms survive the cap. -/
def fitVocabulary (a b : String) : List String :=
  let sorted := ((skAnalyze a ++ skAnalyze b).dedup).mergeSort
    (fun s t => decide (s ≤ t))
  if sorted.length ≤ 100 then sorted
  else
    ((sorted.mergeSort (fun s t =>
        decide (corpusCount a b t < corpusCount a b s) ||
          (decide (corpusCount a b t = corpusCount a b s) && decide (s ≤ t)))).take
      100).mergeSort (fun s t => decide (s ≤ t))

/-- Document frequency of a term in the two-document corpus. -/
def docFreq (a b t : String) : Nat :=
  (if 0 < tf a t then 1 else 0) + (if 0 < tf b t then 1 else 0)

/-- Smoothed inverse document frequency, `ln((1+n)/(1+df)) + 1` with `n = 2`
documents (the vectorizer default `smooth_idf=True`). -/
noncomputable def idf (a b t : String) : ℝ :=
  Real.log (3 / (1 + (docFreq a b t : ℝ))) + 1

/-- TF-IDF weight of term `t` for document `doc` of the corpus `[a, b]`. -/
noncomputable def tfidf (a b doc t : String) : ℝ := (tf doc t : ℝ) * idf a b t

/-- The vocabulary as a finite index set.  `fitVocabulary` is duplicate-free,
so summing a vector over this set is summing it over the coordinates of the
term-document matrix. -/
def vocabFinset (a b : String) : Finset String := (fitVocabulary a b).toFinset

/-- Dot product of the two TF-IDF rows. -/
noncomputable def dotProd (a b : String) : ℝ :=
  ∑ t ∈ vocabFinset a b, tfidf a b a t * tfidf a b b t

/-- Euclidean norm of the TF-IDF row of `doc`. -/
noncomputable def l2norm (a b doc : String) : ℝ :=
  Real.sqrt (∑ t ∈ vocabFinset a b, (tfidf a b doc t) ^ 2)

/-- L2 normalization of a zero row leaves it unchanged: the library replaces
a zero norm by 1 before dividing. -/
noncomputable def safeNorm (x : ℝ) : ℝ := if x = 0 then 1 else x

/-- `JobMatcher.calculate_match_score`: cosine similarity of the TF-IDF rows
of the two texts.  The `ValueError` the vectorizer raises when no term at all
survives its analysis (empty vocabulary) is caught by the source and mapped
to `0.0`; the embedding tests that condition explicitly. -/
noncomputable def calculate_match_score (resume_text job_text : String) : ℝ :=
  if fitVocabulary resume_text job_text = [] then 0
  else
    dotProd resume_text job_text /
      (safeNorm (l2norm resume_text job_text resume_text) *
        safeNorm (l2norm resume_text job_text job_text))

/-! ## Orchestrator (`JobMatcher.match`)

File IO is modelled by a file system `fs : String → Option String`; `none`
models a path whose `open` raises `FileNotFoundError`. -/

/-- `JobMatcher.load_file`: the file's content, or the empty-string sentinel
(after a printed message) when the file is missing. -/
def load_file (fs : String → Option String) (file_path : String) : String :=
  (fs file_path).getD ""

/-- The result record assembled by `JobMatcher.match`. -/
structure MatchResult where
  match_score : ℝ
  match_percentage : ℝ
  matched_skills : Finset String
  missing_skills : Finset String
  resume_keywords : List String
  job_keywords : List String

/-- `JobMatcher.match`: load both files, return the `None` sentinel if either
text is falsy (missing file or empty content), otherwise run the pipeline
with a keyword limit of 30 and package the results. -/
noncomputable def matchFiles (m : JobMatcher) (fs : String → Option String)
    (resume_path job_path : String) : Option MatchResult :=
  let resume_text := load_file fs resume_path
  let job_text := load_file fs job_path
  if resume_text = "" ∨ job_text = "" then none
  else
    let resume_processed := preprocess_text m.stop_words resume_text
    let job_processed := preprocess_text m.stop_words job_text
    let resume_keywords := extract_keywords resume_processed 30
    let job_keywords := extract_keywords job_processed 30
    let match_score := calculate_match_score resume_processed job_processed
    some
      { match_score := match_score
        match_percentage := match_score * 100
        matched_skills := find_matched_skills resume_keywords job_keywords
        missing_skills := find_missing_skills resume_keywords job_keywords
        resume_keywords := resume_keywords
        job_keywords := job_keywords }

/-! ## Method forms

Python methods receive the instance and may in principle update it; each
method of the source only reads `self.stop_words`, which the embedding makes
explicit by returning the instance each method leaves behind next to its
value. -/

/-- Method form of `preprocess_text`. -/
def JobMatcher.preprocessM (m : JobMatcher) (text : String) :
    String × JobMatcher :=
  (preprocess_text m.stop_words text, m)

/-- Method form of `extract_keywords` (reads no instance state). -/
def JobMatcher.extractKeywordsM (m : JobMatcher) (text : String)
    (num_keywords : Nat := 20) : List String × JobMatcher :=
  (extract_keywords text num_keywords, m)

/-- Method form of `calculate_match_score` (reads no instance state). -/
noncomputable def JobMatcher.calculateMatchScoreM (m : JobMatcher)
    (resume_text job_text : String) : ℝ × JobMatcher :=
  (calculate_match_score resume_text job_text, m)

/-- Method form of `find_matched_skills` (reads no instance state). -/
def JobMatcher.findMatchedSkillsM (m : JobMatcher)
    (resume_keywords job_keywords : List String) : Finset String × JobMatcher :=
  (find_matched_skills resume_keywords job_keywords, m)

/-- Method form of `find_missing_skills` (reads no instance state). -/
def JobMatcher.findMissingSkillsM (m : JobMatcher)
    (resume_keywords job_keywords : List String) : Finset String × JobMatcher :=
  (find_missing_skills resume_keywords job_keywords, m)

/-- Method form of `match`, threading the instance through every step the
source performs on `self`. -/
noncomputable def JobMatcher.matchM (m : JobMatcher)
    (fs : String → Option String) (resume_path job_path : String) :
    Option MatchResult × JobMatcher :=
  let resume_text := load_file fs resume_path
  let job_text := load_file fs job_path
  if resume_text = "" ∨ job_text = "" then (none, m)
  else
    let (resume_processed, m) := m.preprocessM resume_text
    let (job_processed, m) := m.preprocessM job_text
    let (resume_keywords, m) := m.extractKeywordsM resume_processed 30
    let (job_keywords, m) := m.extractKeywordsM job_processed 30
    let (match_score, m) := m.calculateMatchScoreM resume_processed job_processed
    let (matched_skills, m) := m.findMatchedSkillsM resume_keywords job_keywords
    let (missing_skills, m) := m.findMissingSkillsM resume_keywords job_keywords
    (some
      { match_score := match_score
        match_percentage := match_score * 100
        matched_skills := matched_skills
        missing_skills := missing_skills
        resume_keywords := resume_keywords
        job_keywords := job_keywords }, m)

/-! ## Lemmas about run splitting and joining -/

theorem splitRuns_nil (keep : Char → Bool) : splitRuns keep [] = [] := rfl

theorem splitRuns_cons_neg {keep : Char → Bool} {c : Char} (cs : List Char)
    (h : keep c = false) :
    splitRuns keep (c :: cs) = splitRuns keep cs := by
  rw [splitRuns, splitRunsAux, if_neg (by simp [h])]
  simp [splitRuns]

/-- While a run is being accumulated, the rest of the run is collected and
the scan continues after it. -/
theorem splitRunsAux_acc_ne_nil {keep : Char → Bool} :
    ∀ (cs : List Char) {acc : List Char}, acc ≠ [] →
      splitRunsAux keep cs acc =
        (acc.reverse ++ cs.takeWhile keep) :: splitRuns keep (cs.dropWhile keep)
  | [], acc, hacc => by
    rw [splitRunsAux, if_neg (by simpa [List.isEmpty_iff] using hacc)]
    simp [splitRuns, splitRunsAux]
  | c :: cs, acc, hacc => by
    by_cases h : keep c = true
    · rw [splitRunsAux, if_pos h, splitRunsAux_acc_ne_nil cs (by simp),
        List.takeWhile_cons_of_pos h, List.dropWhile_cons_of_pos h]
      simp
    · have h' : keep c = false := by simpa using h
      rw [splitRunsAux, if_neg (by simp [h']),
        if_neg (by simpa [List.isEmpty_iff] using hacc),
        List.takeWhile_cons_of_neg (by simp [h']),
        List.dropWhile_cons_of_neg (by simp [h']), splitRuns_cons_neg cs h']
      simp [splitRuns]

theorem splitRuns_cons_pos {keep : Char → Bool} {c : Char} (cs : List Char)
    (h : keep c = true) :
    splitRuns keep (c :: cs) =
      (c :: cs.takeWhile keep) :: splitRuns keep (cs.dropWhile keep) := by
  rw [splitRuns, splitRunsAux, if_pos h, splitRunsAux_acc_ne_nil cs (by simp)]
  simp

theorem takeWhile_all {p : Char → Bool} :
    ∀ {l : List Char}, (∀ c ∈ l, p c = true) → l.takeWhile p = l
  | [], _ => rfl
  | c :: cs, h => by
    rw [List.takeWhile_cons_of_pos (h c (by simp))]
    exact congrArg (c :: ·) (takeWhile_all fun d hd => h d (by simp [hd]))

theorem dropWhile_all {p : Char → Bool} :
    ∀ {l : List Char}, (∀ c ∈ l, p c = true) → l.dropWhile p = []
  | [], _ => rfl
  | c :: cs, h => by
    rw [List.dropWhile_cons_of_pos (h c (by simp))]
    exact dropWhile_all fun d hd => h d (by simp [hd])

theorem takeWhile_append_stop {p : Char → Bool} {s : Char} {r : List Char}
    (hs : p s = false) :
    ∀ {t : List Char}, (∀ c ∈ t, p c = true) →
      (t ++ s :: r).takeWhile p = t
  | [], _ => by simp [List.takeWhile_cons, hs]
  | c :: cs, h => by
    rw [List.cons_append, List.takeWhile_cons_of_pos (h c (by simp))]
    exact congrArg (c :: ·)
      (takeWhile_append_stop hs fun d hd => h d (by simp [hd]))

theorem dropWhile_append_stop {p : Char → Bool} {s : Char} {r : List Char}
    (hs : p s = false) :
    ∀ {t : List Char}, (∀ c ∈ t, p c = true) →
      (t ++ s :: r).dropWhile p = s :: r
  | [], _ => by simp [List.dropWhile_cons, hs]
  | c :: cs, h => by
    rw [List.cons_append, List.dropWhile_cons_of_pos (h c (by simp))]
    exact dropWhile_append_stop hs fun d hd => h d (by simp [hd])

/-- A run of characters all satisfying `keep` splits into itself. -/
theorem splitRuns_all {keep : Char → Bool} {t : List Char} (hne : t ≠ [])
    (hall : ∀ c ∈ t, keep c = true) : splitRuns keep t = [t] := by
  obtain ⟨c, cs, rfl⟩ := List.exists_cons_of_ne_nil hne
  rw [splitRuns_cons_pos cs (hall c (by simp)),
    takeWhile_all fun d hd => hall d (by simp [hd]),
    dropWhile_all fun d hd => hall d (by simp [hd]), splitRuns_nil]

/-- Splitting a run followed by a separator peels off the run. -/
theorem splitRuns_append_stop {keep : Char → Bool} {t : List Char} {s : Char}
    {r : List Char} (hne : t ≠ []) (hall : ∀ c ∈ t, keep c = true)
    (hs : keep s = false) :
    splitRuns keep (t ++ s :: r) = t :: splitRuns keep r := by
  obtain ⟨c, cs, rfl⟩ := List.exists_cons_of_ne_nil hne
  rw [List.cons_append, splitRuns_cons_pos _ (hall c (by simp)),
    takeWhile_append_stop hs fun d hd => hall d (by simp [hd]),
    dropWhile_append_stop hs fun d hd => hall d (by simp [hd]),
    splitRuns_cons_neg _ hs]

/-- Accumulator invariant behind `mem_splitRuns`. -/
theorem mem_splitRunsAux {keep : Char → Bool} :
    ∀ (cs : List Char) {acc w : List Char},
      (∀ c ∈ acc, keep c = true) →
      w ∈ splitRunsAux keep cs acc →
      w ≠ [] ∧ ∀ c ∈ w, keep c = true ∧ (c ∈ cs ∨ c ∈ acc)
  | [], acc, w, hacc, hw => by
    by_cases h : acc.isEmpty
    · rw [splitRunsAux, if_pos h] at hw
      simp at hw
    · rw [splitRunsAux, if_neg h] at hw
      have hwa : w = acc.reverse := by simpa using hw
      subst hwa
      refine ⟨by simpa [List.isEmpty_iff] using h, ?_⟩
      intro c hc
      rw [List.mem_reverse] at hc
      exact ⟨hacc c hc, Or.inr hc⟩
  | c :: cs, acc, w, hacc, hw => by
    by_cases h : keep c = true
    · rw [splitRunsAux, if_pos h] at hw
      obtain ⟨hne, hall⟩ := mem_splitRunsAux cs
        (fun d hd => by
          rcases List.mem_cons.1 hd with rfl | hd
          · exact h
          · exact hacc d hd) hw
      refine ⟨hne, fun d hd => ?_⟩
      obtain ⟨hk, hm⟩ := hall d hd
      rcases hm with hm | hm
      · exact ⟨hk, Or.inl (by simp [hm])⟩
      · rcases List.mem_cons.1 hm with rfl | hm
        · exact ⟨hk, Or.inl (by simp)⟩
        · exact ⟨hk, Or.inr hm⟩
    · have h' : keep c = false := by simpa using h
      rw [splitRunsAux, if_neg (by simp [h'])] at hw
      by_cases ha : acc.isEmpty
      · rw [if_pos ha] at hw
        obtain ⟨hne, hall⟩ := mem_splitRunsAux cs (by simp) hw
        refine ⟨hne, fun d hd => ?_⟩
        obtain ⟨hk, hm⟩ := hall d hd
        rcases hm with hm | hm
        · exact ⟨hk, Or.inl (by simp [hm])⟩
        · simp at hm
      · rw [if_neg ha] at hw
        rcases List.mem_cons.1 hw with rfl | hw
        · refine ⟨by simpa [List.isEmpty_iff] using ha, fun d hd => ?_⟩
          rw [List.mem_reverse] at hd
          exact ⟨hacc d hd, Or.inr hd⟩
        · obtain ⟨hne, hall⟩ := mem_splitRunsAux cs (by simp) hw
          refine ⟨hne, fun d hd => ?_⟩
          obtain ⟨hk, hm⟩ := hall d hd
          rcases hm with hm | hm
          · exact ⟨hk, Or.inl (by simp [hm])⟩
          · simp at hm

/-- Every token a split produces is a nonempty run of kept characters drawn
from the input. -/
theorem mem_splitRuns {keep : Char → Bool} {cs w : List Char}
    (hw : w ∈ splitRuns keep cs) :
    w ≠ [] ∧ ∀ c ∈ w, keep c = true ∧ c ∈ cs := by
  obtain ⟨hne, hall⟩ := mem_splitRunsAux cs (by simp) hw
  refine ⟨hne, fun c hc => ?_⟩
  obtain ⟨hk, hm⟩ := hall c hc
  rcases hm with hm | hm
  · exact ⟨hk, hm⟩
  · simp at hm

/-- Splitting on whitespace is a left inverse of joining with single spaces,
for nonempty whitespace-free tokens. -/
theorem splitRuns_joinSp :
    ∀ {ts : List (List Char)}, (∀ w ∈ ts, w ≠ []) →
      (∀ w ∈ ts, ∀ c ∈ w, isWs c = false) →
      splitRuns (fun c => !isWs c) (joinSp ts) = ts := by
  intro ts
  induction ts using joinSp.induct with
  | case1 => simp [joinSp, splitRuns_nil]
  | case2 t =>
    intro h1 h2
    rw [joinSp, splitRuns_all (h1 t (by simp))]
    intro c hc
    simp [h2 t (by simp) c hc]
  | case3 t t' ts ih =>
    intro h1 h2
    rw [joinSp, splitRuns_append_stop (h1 t (by simp))
      (fun c hc => by simp [h2 t (by simp) c hc]) (by simp [isWs]),
      ih (fun w hw => h1 w (by simp [hw])) (fun w hw => h2 w (by simp [hw]))]

/-- Every character of a joined token list is a space or a token character. -/
theorem mem_joinSp :
    ∀ {ts : List (List Char)} {c : Char}, c ∈ joinSp ts →
      c = ' ' ∨ ∃ w ∈ ts, c ∈ w := by
  intro ts
  induction ts using joinSp.induct with
  | case1 => simp [joinSp]
  | case2 t => intro c hc; exact Or.inr ⟨t, by simp, by simpa [joinSp] using hc⟩
  | case3 t t' ts ih =>
    intro c hc
    rw [joinSp] at hc
    rcases List.mem_append.1 hc with hc | hc
    · exact Or.inr ⟨t, by simp, hc⟩
    · rcases List.mem_cons.1 hc with rfl | hc
      · exact Or.inl rfl
      · rcases ih hc with rfl | ⟨w, hw, hcw⟩
        · exact Or.inl rfl
        · exact Or.inr ⟨w, by simp [List.mem_cons.1 hw], hcw⟩

/-! ## Idempotence of the normalizer -/

/-- Lowercasing output is a fixed point of lowercasing. -/
theorem lowerChar_lowerChar (c : Char) : lowerChar (lowerChar c) = lowerChar c := by
  unfold lowerChar
  cases h : upperLower.find? (fun p => p.1 = c) with
  | none => simp [h]
  | some p =>
    have hp : p ∈ upperLower := List.mem_of_find?_eq_some h
    have hfix : ∀ q ∈ upperLower,
        upperLower.find? (fun r => r.1 = q.2) = none := by decide
    simp [h, hfix p hp]

/-- Characters produced by the first pass of the normalizer: lowercase (in
the sense of being `lowerChar`-fixed) and not ASCII punctuation. -/
theorem preprocessTokens_chars {stop : List (List Char)} {cs : List Char}
    {w : List Char} (hw : w ∈ preprocessTokens stop cs) :
    ∀ c ∈ w, lowerChar c = c ∧ c ∉ asciiPunct ∧ isWs c = false := by
  intro c hc
  have hw' := List.mem_of_mem_filter hw
  obtain ⟨-, hchars⟩ := mem_splitRuns hw'
  obtain ⟨hkeep, hmem⟩ := hchars c hc
  have hmem' := List.mem_filter.1 hmem
  obtain ⟨d, -, rfl⟩ := List.mem_map.1 hmem'.1
  refine ⟨lowerChar_lowerChar d, by simpa using hmem'.2, by simpa using hkeep⟩

/-- Tokens produced by the first pass: nonempty (length > 2), whitespace-free,
and they pass the stopword/length filter. -/
theorem preprocessTokens_tokens {stop : List (List Char)} {cs : List Char}
    {w : List Char} (hw : w ∈ preprocessTokens stop cs) :
    w ≠ [] ∧ keepToken stop w = true := by
  have hk := List.of_mem_filter hw
  have hw' := List.mem_of_mem_filter hw
  exact ⟨(mem_splitRuns hw').1, hk⟩

/-- Re-normalizing the output of the normalizer changes nothing
(character-level form). -/
theorem preprocessTokens_idem (stop : List (List Char)) (cs : List Char) :
    preprocessTokens stop (joinSp (preprocessTokens stop cs)) =
      preprocessTokens stop cs := by
  set ts := preprocessTokens stop cs with hts
  have hchars := fun w (hw : w ∈ ts) => preprocessTokens_chars (hts ▸ hw)
  have htoks := fun w (hw : w ∈ ts) => preprocessTokens_tokens (hts ▸ hw)
  have hmap : (joinSp ts).map lowerChar = joinSp ts := by
    refine (List.map_congr_left (g := id) ?_).trans (List.map_id _)
    intro c hc
    simp only [id]
    rcases mem_joinSp hc with rfl | ⟨w, hw, hcw⟩
    · decide
    · exact (hchars w hw c hcw).1
  have hfilter : (joinSp ts).filter (fun c => decide (c ∉ asciiPunct)) =
      joinSp ts := by
    rw [List.filter_eq_self]
    intro c hc
    rcases mem_joinSp hc with rfl | ⟨w, hw, hcw⟩
    · decide
    · simp [(hchars w hw c hcw).2.1]
  have hsplit : splitRuns (fun c => !isWs c) (joinSp ts) = ts :=
    splitRuns_joinSp (fun w hw => (htoks w hw).1)
      (fun w hw c hc => (hchars w hw c hc).2.2)
  unfold preprocessTokens
  rw [hmap, hfilter, hsplit, List.filter_eq_self.2 fun w hw => (htoks w hw).2]

/-! ## Distinctness of extracted keywords -/

theorem bumpCount_keys (w : List Char) :
    ∀ acc : List (List Char × Nat),
      (bumpCount acc w).map Prod.fst =
        if w ∈ acc.map Prod.fst then acc.map Prod.fst
        else acc.map Prod.fst ++ [w]
  | [] => by simp [bumpCount]
  | (k, n) :: rest => by
    by_cases hk : k = w
    · simp [bumpCount, hk]
    · have := bumpCount_keys w rest
      by_cases hw : w ∈ rest.map Prod.fst <;>
        simp_all [bumpCount, hk, Ne.symm hk]

theorem nodup_append_single {α : Type} {l : List α} {a : α} (hl : l.Nodup)
    (ha : a ∉ l) : (l ++ [a]).Nodup := by
  rw [List.nodup_append]
  exact ⟨hl, List.nodup_singleton a, by simpa using ha⟩

theorem bumpCount_keys_nodup {acc : List (List Char × Nat)} (w : List Char)
    (h : (acc.map Prod.fst).Nodup) : ((bumpCount acc w).map Prod.fst).Nodup := by
  rw [bumpCount_keys]
  by_cases hw : w ∈ acc.map Prod.fst
  · simpa [hw]
  · simpa [hw] using nodup_append_single h hw

/-- The keys of the frequency dictionary are distinct. -/
theorem countFreq_keys_nodup (ws : List (List Char)) :
    ((countFreq ws).map Prod.fst).Nodup := by
  suffices h : ∀ acc : List (List Char × Nat), (acc.map Prod.fst).Nodup →
      ((ws.foldl bumpCount acc).map Prod.fst).Nodup from h [] (by simp)
  induction ws with
  | nil => exact fun acc h => h
  | cons w ws ih =>
    intro acc h
    exact ih (bumpCount acc w) (bumpCount_keys_nodup w h)

/-- `extract_keywords` never returns duplicate tokens. -/
theorem extract_keywords_nodup (text : String) (num_keywords : Nat) :
    (extract_keywords text num_keywords).Nodup := by
  unfold extract_keywords
  have hperm : List.Perm
      (sortByFreq (countFreq (splitRuns (fun c => !isWs c) text.data)))
      (countFreq (splitRuns (fun c => !isWs c) text.data)) :=
    List.mergeSort_perm _ _
  have hnodup : ((sortByFreq (countFreq (splitRuns (fun c => !isWs c) text.data))).map
      Prod.fst).Nodup :=
    ((hperm.map Prod.fst).symm.nodup (countFreq_keys_nodup _))
  have htake : (((sortByFreq (countFreq (splitRuns (fun c => !isWs c) text.data))).take
      num_keywords).map Prod.fst).Nodup := by
    rw [List.map_take]
    exact (List.take_sublist _ _).nodup hnodup
  have : (fun p : List Char × Nat => String.mk p.1) =
      String.mk ∘ Prod.fst := rfl
  rw [this, ← List.map_map]
  exact htake.map fun a b hab => congrArg String.data hab

/-- `extract_keywords` returns at most `num_keywords` entries. -/
theorem extract_keywords_length_le (text : String) (num_keywords : Nat) :
    (extract_keywords text num_keywords).length ≤ num_keywords := by
  unfold extract_keywords
  simp only [List.length_map]
  exact List.length_take_le num_keywords _

/-- `extract_keywords` returns the empty list on the empty string. -/
theorem extract_keywords_empty (num_keywords : Nat) :
    extract_keywords "" num_keywords = [] := by
  unfold extract_keywords
  simp [splitRuns_nil, countFreq, sortByFreq, List.mergeSort_nil]

/-! ## Scorer lemmas -/

theorem docFreq_le_two (a b t : String) : docFreq a b t ≤ 2 := by
  unfold docFreq
  split <;> split <;> omega

theorem idf_ge_one (a b t : String) : 1 ≤ idf a b t := by
  unfold idf
  have h2 : (docFreq a b t : ℝ) ≤ 2 := by exact_mod_cast docFreq_le_two a b t
  have h0 : (0 : ℝ) ≤ docFreq a b t := Nat.cast_nonneg _
  have hpos : (0 : ℝ) < 1 + docFreq a b t := by linarith
  have h1 : (1 : ℝ) ≤ 3 / (1 + docFreq a b t) := by
    rw [le_div_iff₀ hpos]
    linarith
  have := Real.log_nonneg h1
  linarith

theorem tfidf_nonneg (a b doc t : String) : 0 ≤ tfidf a b doc t :=
  mul_nonneg (Nat.cast_nonneg _) (zero_le_one.trans (idf_ge_one a b t))

theorem dotProd_nonneg (a b : String) : 0 ≤ dotProd a b :=
  Finset.sum_nonneg fun t _ => mul_nonneg (tfidf_nonneg a b a t) (tfidf_nonneg a b b t)

theorem safeNorm_pos {x : ℝ} (hx : 0 ≤ x) : 0 < safeNorm x := by
  unfold safeNorm
  split
  · exact one_pos
  · exact lt_of_le_of_ne hx (Ne.symm (by assumption))

/-- A document whose TF-IDF row has zero norm has an all-zero row. -/
theorem tfidf_row_eq_zero {a b doc : String} (h : l2norm a b doc = 0) :
    ∀ t ∈ vocabFinset a b, tfidf a b doc t = 0 := by
  have hsum : ∑ t ∈ vocabFinset a b, (tfidf a b doc t) ^ 2 = 0 :=
    (Real.sqrt_eq_zero (Finset.sum_nonneg fun t _ => sq_nonneg _)).1 h
  intro t ht
  have := (Finset.sum_eq_zero_iff_of_nonneg fun i _ => sq_nonneg _).1 hsum t ht
  exact pow_eq_zero_iff (two_ne_zero) |>.1 this

/-- Cauchy-Schwarz: the dot product of the rows is at most the product of
their norms. -/
theorem dotProd_le_norms (a b : String) :
    dotProd a b ≤ l2norm a b a * l2norm a b b := by
  have hcs := Finset.sum_mul_sq_le_sq_mul_sq (vocabFinset a b)
    (fun t => tfidf a b a t) (fun t => tfidf a b b t)
  have hda : (0 : ℝ) ≤ ∑ t ∈ vocabFinset a b, (tfidf a b a t) ^ 2 :=
    Finset.sum_nonneg fun t _ => sq_nonneg _
  calc dotProd a b = Real.sqrt ((dotProd a b) ^ 2) :=
        (Real.sqrt_sq (dotProd_nonneg a b)).symm
    _ ≤ Real.sqrt ((∑ t ∈ vocabFinset a b, (tfidf a b a t) ^ 2) *
          ∑ t ∈ vocabFinset a b, (tfidf a b b t) ^ 2) :=
        Real.sqrt_le_sqrt hcs
    _ = l2norm a b a * l2norm a b b := Real.sqrt_mul hda _

/-- A document with no analyzer tokens contributes a zero row. -/
theorem dotProd_eq_zero_left (a b : String) (h : skAnalyze a = []) :
    dotProd a b = 0 :=
  Finset.sum_eq_zero fun t _ => by
    unfold tfidf tf
    rw [h, List.count_nil]
    simp

theorem dotProd_eq_zero_right (a b : String) (h : skAnalyze b = []) :
    dotProd a b = 0 :=
  Finset.sum_eq_zero fun t _ => by
    unfold tfidf tf
    rw [h, List.count_nil]
    simp

/-- The vectorizer's vocabulary is empty exactly when neither document has a
surviving analyzer token (the `ValueError` condition). -/
theorem fitVocabulary_eq_nil_iff (a b : String) :
    fitVocabulary a b = [] ↔ skAnalyze a = [] ∧ skAnalyze b = [] := by
  unfold fitVocabulary
  dsimp only
  set l := (skAnalyze a ++ skAnalyze b).dedup with hl
  set s1 := l.mergeSort (fun s t => decide (s ≤ t)) with hs1
  have hlen1 : s1.length = l.length := (List.mergeSort_perm _ _).length_eq
  split
  next hle =>
    rw [← List.length_eq_zero, hlen1, List.length_eq_zero, hl,
      List.dedup_eq_nil, List.append_eq_nil]
  next hgt =>
    apply iff_of_false
    · intro h
      have hlen := congrArg List.length h
      rw [(List.mergeSort_perm _ _).length_eq, List.length_take,
        (List.mergeSort_perm _ _).length_eq, hlen1] at hlen
      simp only [List.length_nil] at hlen
      omega
    · rintro ⟨h1, h2⟩
      have hl0 : l.length = 0 := by
        rw [hl, h1, h2]
        simp
      omega

/-- Every vocabulary term occurs in at least one of the two documents. -/
theorem mem_fitVocabulary {a b t : String} (h : t ∈ fitVocabulary a b) :
    t ∈ skAnalyze a ∨ t ∈ skAnalyze b := by
  unfold fitVocabulary at h
  dsimp only at h
  split at h
  · rw [List.mem_mergeSort, List.mem_dedup, List.mem_append] at h
    exact h
  · rw [List.mem_mergeSort] at h
    have h' := (List.take_subset _ _) h
    rw [List.mem_mergeSort, List.mem_mergeSort, List.mem_dedup,
      List.mem_append] at h'
    exact h'

/-! ## Claims -/

/-- C1: for every pair of input strings, if either document is empty after
normalization, or the two-document vocabulary is empty after the scorer's
internal stopword filtering (so the vectorizer cannot be fitted), then
`calculate_match_score` returns exactly 0.0 and raises no error (the
embedding is a total function; the `ValueError` branch is the vocabulary
test). -/
theorem claim_C1_degenerate_zero (resume_text job_text : String)
    (h : resume_text = "" ∨ job_text = "" ∨
      fitVocabulary resume_text job_text = []) :
    calculate_match_score resume_text job_text = 0 := by
  rcases h with rfl | rfl | hv
  · unfold calculate_match_score
    split
    · rfl
    · rw [dotProd_eq_zero_left "" job_text rfl, zero_div]
  · unfold calculate_match_score
    split
    · rfl
    · rw [dotProd_eq_zero_right resume_text "" rfl, zero_div]
  · unfold calculate_match_score
    rw [if_pos hv]

/-- Witness for C1 at the concrete pair `("", "python")`. -/
theorem claim_C1_witness :
    (("" : String) = "" ∨ ("python" : String) = "" ∨
      fitVocabulary "" "python" = []) ∧
      calculate_match_score "" "python" = 0 :=
  ⟨Or.inl rfl, claim_C1_degenerate_zero "" "python" (Or.inl rfl)⟩

/-- C2: for every pair of file paths, if reading either file fails (file
missing), `match` returns the `None` sentinel instead of raising, and the
rest of the pipeline is not reached for that attempt. -/
theorem claim_C2_missing_file_sentinel (m : JobMatcher)
    (fs : String → Option String) (resume_path job_path : String)
    (h : fs resume_path = none ∨ fs job_path = none) :
    matchFiles m fs resume_path job_path = none := by
  rcases h with h | h <;> simp [matchFiles, load_file, h]

/-- Witness for C2 on a file system with no files at all. -/
theorem claim_C2_witness :
    ((fun _ : String => (none : Option String)) "resume.txt" = none ∨
      (fun _ : String => (none : Option String)) "job.txt" = none) ∧
      matchFiles defaultMatcher (fun _ => none) "resume.txt" "job.txt" =
        none :=
  ⟨Or.inl rfl,
    claim_C2_missing_file_sentinel defaultMatcher (fun _ => none)
      "resume.txt" "job.txt" (Or.inl rfl)⟩

/-- C3: for every input string, normalization is idempotent:
`preprocess_text (preprocess_text x) = preprocess_text x` (for any matcher
stopword set). -/
theorem claim_C3_normalize_idempotent (m : JobMatcher) (x : String) :
    preprocess_text m.stop_words (preprocess_text m.stop_words x) =
      preprocess_text m.stop_words x := by
  unfold preprocess_text
  exact congrArg (fun l => String.mk (joinSp l)) (preprocessTokens_idem _ _)

/-- C4: for every input string and every limit, `extract_keywords` returns
at most `limit` entries and no duplicate tokens, and it returns the empty
list on the empty input (never failing: it is a total function). -/
theorem claim_C4_extract_keywords_bounded (text : String) (limit : Nat) :
    (extract_keywords text limit).length ≤ limit ∧
      (extract_keywords text limit).Nodup ∧
      extract_keywords "" limit = [] :=
  ⟨extract_keywords_length_le text limit, extract_keywords_nodup text limit,
    extract_keywords_empty limit⟩

/-- C5: matched skills are symmetric in the two keyword lists; missing
skills are the job keywords minus the resume keywords (argument order
matters); and the missing skills of a list against itself are empty. -/
theorem claim_C5_skill_sets (A B : List String) :
    find_matched_skills A B = find_matched_skills B A ∧
      find_missing_skills A B = B.toFinset \ A.toFinset ∧
      find_missing_skills A A = ∅ := by
  refine ⟨Finset.inter_comm _ _, rfl, ?_⟩
  simp [find_missing_skills]

/-- C6 (amended): for every non-empty normalized string `X` at least one of
whose tokens also survives the scorer's internal tokenization and English
stopword filter, `calculate_match_score X X` is exactly 1 (in exact
arithmetic; a float implementation is within tolerance of 1). -/
theorem claim_C6_self_similarity (X : String) (_hne : X ≠ "")
    (_hnorm : preprocess_text defaultStopWords X = X)
    (htok : skAnalyze X ≠ []) :
    calculate_match_score X X = 1 := by
  have hvoc : fitVocabulary X X ≠ [] := by
    rw [Ne, fitVocabulary_eq_nil_iff]
    intro h
    exact htok h.1
  unfold calculate_match_score
  rw [if_neg hvoc]
  have hdot : dotProd X X = ∑ t ∈ vocabFinset X X, (tfidf X X X t) ^ 2 :=
    Finset.sum_congr rfl fun t _ => (pow_two _).symm
  set S := ∑ t ∈ vocabFinset X X, (tfidf X X X t) ^ 2 with hS
  have hSpos : 0 < S := by
    obtain ⟨t0, ht0⟩ := List.exists_mem_of_ne_nil _ hvoc
    have ht0' : t0 ∈ vocabFinset X X := List.mem_toFinset.2 ht0
    have htf : 0 < tf X t0 :=
      List.count_pos_iff.2 ((mem_fitVocabulary ht0).elim id id)
    have hpos : 0 < tfidf X X X t0 :=
      mul_pos (by exact_mod_cast htf)
        (lt_of_lt_of_le zero_lt_one (idf_ge_one X X t0))
    exact Finset.sum_pos' (fun t _ => sq_nonneg _) ⟨t0, ht0', pow_pos hpos 2⟩
  have hnorm0 : l2norm X X X = Real.sqrt S := rfl
  have hsn : safeNorm (l2norm X X X) = Real.sqrt S := by
    rw [hnorm0, safeNorm, if_neg (ne_of_gt (Real.sqrt_pos.2 hSpos))]
  rw [hdot, hsn, Real.mul_self_sqrt hSpos.le, div_self (ne_of_gt hSpos)]

/-- Witness for the amended C6 at `X = "python"`: a non-empty normalized
document that the scorer also tokenizes, with self-similarity exactly 1. -/
theorem claim_C6_witness :
    (("python" : String) ≠ "" ∧
      preprocess_text defaultStopWords "python" = "python" ∧
      skAnalyze "python" ≠ []) ∧
      calculate_match_score "python" "python" = 1 :=
  ⟨⟨by decide, by decide, by decide⟩,
    claim_C6_self_similarity "python" (by decide) (by decide) (by decide)⟩

/-- Counterexample to C6 as stated: `"system"` is a non-empty normalized
document (it is lowercase, punctuation-free, longer than 2 characters, and
not in the matcher's stopword corpus), yet the scorer's internal English
stopword list removes it, the vocabulary is empty, and the self-similarity
score is the 0.0 fallback — at distance 1 from the claimed value 1.0, far
outside any floating-point tolerance. -/
theorem claim_C6_counterexample :
    ("system" : String) ≠ "" ∧
      preprocess_text defaultStopWords "system" = "system" ∧
      calculate_match_score "system" "system" = 0 ∧
      |calculate_match_score "system" "system" - 1| = 1 := by
  have hv : fitVocabulary "system" "system" = [] := by
    rw [fitVocabulary_eq_nil_iff]
    exact ⟨by decide, by decide⟩
  have hz : calculate_match_score "system" "system" = 0 := by
    unfold calculate_match_score
    rw [if_pos hv]
  refine ⟨by decide, by decide, hz, ?_⟩
  rw [hz]
  norm_num

/-- C7: for every pair of input strings the similarity score lies in the
interval `[0, 1]`. -/
theorem claim_C7_score_unit_interval (resume_text job_text : String) :
    0 ≤ calculate_match_score resume_text job_text ∧
      calculate_match_score resume_text job_text ≤ 1 := by
  unfold calculate_match_score
  split
  · norm_num
  · have hdot := dotProd_nonneg resume_text job_text
    have hna : 0 ≤ l2norm resume_text job_text resume_text :=
      Real.sqrt_nonneg _
    have hnb : 0 ≤ l2norm resume_text job_text job_text := Real.sqrt_nonneg _
    have hsa := safeNorm_pos hna
    have hsb := safeNorm_pos hnb
    refine ⟨div_nonneg hdot (mul_pos hsa hsb).le, ?_⟩
    by_cases ha0 : l2norm resume_text job_text resume_text = 0
    · have hz : dotProd resume_text job_text = 0 :=
        Finset.sum_eq_zero fun t ht => by
          rw [tfidf_row_eq_zero ha0 t ht, zero_mul]
      rw [hz, zero_div]
      exact zero_le_one
    · by_cases hb0 : l2norm resume_text job_text job_text = 0
      · have hz : dotProd resume_text job_text = 0 :=
          Finset.sum_eq_zero fun t ht => by
            rw [tfidf_row_eq_zero hb0 t ht, mul_zero]
        rw [hz, zero_div]
        exact zero_le_one
      · rw [safeNorm, if_neg ha0, safeNorm, if_neg hb0,
          div_le_one (mul_pos (lt_of_le_of_ne hna (Ne.symm ha0))
            (lt_of_le_of_ne hnb (Ne.symm hb0)))]
        exact dotProd_le_norms _ _

/-- C8: `preprocess_text` computes exactly the spec's normalization pipeline
(lowercase, strip ASCII punctuation, whitespace-split, drop stopwords and
tokens of length ≤ 2, rejoin with single spaces), raises no error (it is a
total function), and maps the empty string to the empty string. -/
theorem claim_C8_normalizer_functional (stop : List String) (text : String) :
    preprocess_text stop text = normalizeSpec stop text ∧
      preprocess_text stop "" = "" := by
  constructor
  · unfold preprocess_text normalizeSpec preprocessTokens
    dsimp only
    refine congrArg (fun l => String.mk (joinSp l)) (List.filter_congr ?_)
    intro w hw
    unfold keepToken
    by_cases h1 : w ∈ stop.map String.data
    · simp [h1]
    · by_cases h2 : 2 < w.length
      · have h2' : ¬ w.length ≤ 2 := by omega
        simp [h1, h2, h2']
      · have h2' : w.length ≤ 2 := by omega
        simp [h1, h2, h2']
  · rfl

/-- C9: no operation of the matcher modifies the stopword set built at
construction: each method hands back an instance whose `stop_words` equals
the one it received. -/
theorem claim_C9_stop_words_immutable (m : JobMatcher)
    (fs : String → Option String)
    (text resume_text job_text resume_path job_path : String)
    (num_keywords : Nat) (resume_keywords job_keywords : List String) :
    (m.preprocessM text).2.stop_words = m.stop_words ∧
      (m.extractKeywordsM text num_keywords).2.stop_words = m.stop_words ∧
      (m.calculateMatchScoreM resume_text job_text).2.stop_words =
        m.stop_words ∧
      (m.findMatchedSkillsM resume_keywords job_keywords).2.stop_words =
        m.stop_words ∧
      (m.findMissingSkillsM resume_keywords job_keywords).2.stop_words =
        m.stop_words ∧
      (m.matchM fs resume_path job_path).2.stop_words = m.stop_words := by
  refine ⟨rfl, rfl, rfl, rfl, rfl, ?_⟩
  unfold JobMatcher.matchM
  dsimp only
  split <;> rfl

/-- C10: a file that exists but is empty produces the same `None` sentinel
as a missing file, so the public `match` interface cannot distinguish an
empty input document from a load failure. -/
theorem claim_C10_empty_file_indistinguishable (m : JobMatcher)
    (fs fs' : String → Option String) (resume_path job_path : String)
    (h : fs resume_path = some "" ∨ fs job_path = some "")
    (h' : fs' resume_path = none) :
    matchFiles m fs resume_path job_path = none ∧
      matchFiles m fs resume_path job_path =
        matchFiles m fs' resume_path job_path := by
  have h1 : matchFiles m fs resume_path job_path = none := by
    rcases h with h | h <;> simp [matchFiles, load_file, h]
  have h2 : matchFiles m fs' resume_path job_path = none := by
    simp [matchFiles, load_file, h']
  exact ⟨h1, h1.trans h2.symm⟩

/-- Witness for C10: a file system whose files are all empty against one
with no files. -/
theorem claim_C10_witness :
    (((fun _ : String => some "") "resume.txt" = some "" ∨
        (fun _ : String => some "") "job.txt" = some "") ∧
      (fun _ : String => (none : Option String)) "resume.txt" = none) ∧
      matchFiles defaultMatcher (fun _ => some "") "resume.txt" "job.txt" =
          none ∧
        matchFiles defaultMatcher (fun _ => some "") "resume.txt" "job.txt" =
          matchFiles defaultMatcher (fun _ => none) "resume.txt" "job.txt" :=
  ⟨⟨Or.inl rfl, rfl⟩,
    claim_C10_empty_file_indistinguishable defaultMatcher (fun _ => some "")
      (fun _ => none) "resume.txt" "job.txt" (Or.inl rfl) rfl⟩

end JobMatcherModel
